import Mathlib

/-!
Verification development for the ollama-chat repository.

The client code lives in `src/components/chat.tsx`, `src/components/message-list.tsx`
(and the error-message helper bundled with `chat.tsx`), the model catalog in
`src/lib/ollama/provider.ts`, and the chat route handler bundled with
`src/app/layout.tsx`.  The streaming session manager and the message assembler are
provided by the `@ai-sdk/react` dependency (`useChat`) and are not present under
`src/`; where a property concerns those components they are modelled from the
specification (sections 4.3, 4.4 and 5) and each such definition says so in its
doc comment.

JavaScript string primitives (`trim`, `toLowerCase`, `includes`, `split`) are
embedded as structural functions over the character list of a `String`, so that
every definition evaluates inside the kernel.
-/

namespace OllamaChat

/-- JavaScript `String.prototype.trim`: drop leading and trailing whitespace. -/
def jsTrim (s : String) : String :=
  String.mk (((s.data.dropWhile Char.isWhitespace).reverse.dropWhile Char.isWhitespace).reverse)

/-- JavaScript `String.prototype.toLowerCase` (ASCII case mapping suffices here). -/
def toLowerStr (s : String) : String :=
  String.mk (s.data.map Char.toLower)

/-- Does the pattern (first argument) occur at the head of the list? -/
def charsStartWith : List Char → List Char → Bool
  | [], _ => true
  | _ :: _, [] => false
  | p :: ps, h :: hs => p == h && charsStartWith ps hs

/-- Does the pattern (second argument) occur anywhere in the list? -/
def charsContain : List Char → List Char → Bool
  | [], pat => charsStartWith pat []
  | h :: rest, pat => charsStartWith pat (h :: rest) || charsContain rest pat

/-- JavaScript `String.prototype.includes`. -/
def includes (s sub : String) : Bool :=
  charsContain s.data sub.data

/-- JavaScript `name.split(':')[0]`: the characters before the first colon. -/
def baseModelName (s : String) : String :=
  String.mk (s.data.takeWhile (fun c => c != ':'))

/-- Message roles (spec section 3). -/
inductive Role
  | user
  | assistant
  | system
deriving DecidableEq, Repr

/-- A message part: the closed tagged variant of spec section 3.  AI SDK v5
messages carry a `parts` array of exactly this shape, and
`src/components/message-list.tsx` renders the `text` variants of it. -/
inductive Part
  | text (s : String)
  | toolInvocation (id name args : String) (result : Option String)
  | file (mime data : String)
deriving DecidableEq, Repr

/-- An assistant message under assembly: its ordered parts and whether a
`finish` event has closed it (spec section 3, Lifecycle). -/
structure Message where
  role : Role
  parts : List Part
  closed : Bool
deriving DecidableEq, Repr

/-- Values of `finish.reason` in the wire protocol (spec section 6). -/
inductive FinishReason
  | stop
  | length
  | error
deriving DecidableEq, Repr

/-- Decoded protocol events (spec section 6). -/
inductive ProtocolEvent
  | textDelta (text : String)
  | toolCall (id name args : String)
  | toolResult (id result : String)
  | errorEvent (message : String)
  | finish (reason : FinishReason)
deriving DecidableEq, Repr

/-- Assembly failure: a `tool-result` event with no matching open invocation
(spec section 4.3). -/
inductive AssemblyError
  | noOpenInvocation (id : String)
deriving DecidableEq, Repr

/-- Modelled from the spec (section 4.3, `text-delta`; the assembler lives in the
`@ai-sdk/react` dependency, not under `src/`): append the delta to the last
`text` part if one is open, else open a new `text` part. -/
def appendDelta : List Part → String → List Part
  | [], t => [.text t]
  | p :: rest, t =>
    if rest.isEmpty then
      match p with
      | .text s => [.text (s ++ t)]
      | _ => [p, .text t]
    else p :: appendDelta rest t

/-- One step of the `tool-result` search: fill the head part when it is an
open `toolInvocation` carrying the correlation id. -/
def fillHead (p : Part) (rest : List Part) (id r : String) : Option (List Part) :=
  match p with
  | .toolInvocation pid name args none =>
    if pid = id then some (.toolInvocation pid name args (some r) :: rest) else none
  | _ => none

/-- Modelled from the spec (section 4.3, `tool-result`): fill the most recent
`toolInvocation` part that lacks a result and carries the correlation id
(later parts take precedence); `none` when no such open invocation exists. -/
def fillResult : List Part → String → String → Option (List Part)
  | [], _, _ => none
  | p :: rest, id, r =>
    match fillResult rest id r with
    | some rest2 => some (p :: rest2)
    | none => fillHead p rest id r

/-- Modelled from the spec (section 4.3, the Message Assembler's
`apply(event, targetMessage)`; the assembler lives in the `@ai-sdk/react`
dependency, not under `src/`): events after `finish` are discarded, `text-delta`
extends the open text part, `tool-call` opens an invocation, `tool-result`
fills the matching open invocation or fails, `finish` closes the message.
An `error` event is routed to the session machine and leaves the message alone. -/
def applyEvent (e : ProtocolEvent) (m : Message) : Except AssemblyError Message :=
  if m.closed then .ok m
  else
    match e with
    | .textDelta t => .ok { m with parts := appendDelta m.parts t }
    | .toolCall id name args =>
      .ok { m with parts := m.parts ++ [.toolInvocation id name args none] }
    | .toolResult id r =>
      match fillResult m.parts id r with
      | some ps => .ok { m with parts := ps }
      | none => .error (.noOpenInvocation id)
    | .errorEvent _ => .ok m
    | .finish _ => .ok { m with closed := true }

/-- Fold a whole event sequence through the assembler, stopping at the first
assembly failure. -/
def applyAll : List ProtocolEvent → Message → Except AssemblyError Message
  | [], m => .ok m
  | e :: rest, m =>
    match applyEvent e m with
    | .ok m2 => applyAll rest m2
    | .error err => .error err

/-- The placeholder assistant message opened at submission time
(spec section 3, Lifecycle). -/
def emptyAssistantMessage : Message :=
  { role := .assistant, parts := [], closed := false }

/-- The concatenation of all `text-delta.text` payloads of a sequence, in
arrival order. -/
def deltaConcat : List ProtocolEvent → String
  | [] => ""
  | .textDelta t :: rest => t ++ deltaConcat rest
  | _ :: rest => deltaConcat rest

/-- Is the event a `finish` event? -/
def isFinish : ProtocolEvent → Bool
  | .finish _ => true
  | _ => false

/-- The event sequence contains no `finish` event. -/
def noFinish (evts : List ProtocolEvent) : Bool :=
  evts.all (fun e => !isFinish e)

/-- Is the part a `text` part?  (`part.type === 'text'` in
`src/components/message-list.tsx`.) -/
def isTextPart : Part → Bool
  | .text _ => true
  | _ => false

/-- The text payload of a part; empty for non-text parts. -/
def partText : Part → String
  | .text s => s
  | _ => ""

/-- From `src/components/message-list.tsx` lines 33-45:
`message.parts.filter(part => part.type === 'text').map(part => part.text).join('')`. -/
def renderText (ps : List Part) : String :=
  String.join ((ps.filter isTextPart).map partText)

/-- The concatenation of the text parts of a part list, in order. -/
def textConcat : List Part → String
  | [] => ""
  | p :: ps => partText p ++ textConcat ps

/-- Session statuses (spec section 4.4; the `useChat` statuses are `submitted`,
`streaming`, `ready` and `error`, the spec adds the initial `idle`). -/
inductive Status
  | idle
  | submitted
  | streaming
  | ready
  | error
deriving DecidableEq, Repr

/-- Terminal reason of an exchange (spec section 4.4). -/
inductive TerminalReason
  | completed
  | cancelled
  | errored
deriving DecidableEq, Repr

/-- Modelled from the spec (sections 3 and 4.4; the session manager is the
`useChat` hook of `@ai-sdk/react`, not under `src/`): the conversation, the
discrete status, and the terminal reason of the current exchange. -/
structure SessionState where
  conversation : List Message
  status : Status
  terminalReason : Option TerminalReason
deriving DecidableEq, Repr

/-- Is a request active (spec: `submitted`/`streaming`)? -/
def isActiveStatus : Status → Bool
  | .submitted => true
  | .streaming => true
  | _ => false

/-- Mark the message currently streaming (the last one) terminal. -/
def closeLastMessage : List Message → List Message
  | [] => []
  | [m] => [{ m with closed := true }]
  | m :: ms => m :: closeLastMessage ms

/-- Forward an event to the assembler on the last (streaming assistant)
message of the conversation. -/
def applyToLast (e : ProtocolEvent) : List Message → Except AssemblyError (List Message)
  | [] => .ok []
  | [m] => (applyEvent e m).map (fun m2 => [m2])
  | m :: ms => (applyToLast e ms).map (fun ms2 => m :: ms2)

/-- Modelled from the spec (section 4.4, `cancel()`; the session manager is the
`useChat` hook, not under `src/`): no-op unless `submitted`/`streaming`,
otherwise mark the assistant message terminal with reason `cancelled` and
transition to `ready`. -/
def cancel (st : SessionState) : SessionState :=
  if isActiveStatus st.status then
    { conversation := closeLastMessage st.conversation
      status := .ready
      terminalReason := some .cancelled }
  else st

/-- Modelled from the spec (sections 4.4 and 5; the session manager is the
`useChat` hook, not under `src/`): deliver one decoded event to the session.
Events are forwarded to the assembler only while a request is active; an event
arriving when the status is not `submitted`/`streaming` (in particular after
`cancel()` took effect) is observed but ignored and mutates nothing.  A `finish`
event ends the exchange with reason `completed`, an `error` event or an assembly
failure ends it with reason `errored`, and any other event moves the machine to
`streaming`. -/
def deliver (st : SessionState) (e : ProtocolEvent) : SessionState :=
  if isActiveStatus st.status then
    match e with
    | .errorEvent _ =>
      { conversation := closeLastMessage st.conversation
        status := .error
        terminalReason := some .errored }
    | .finish _ =>
      { conversation := closeLastMessage st.conversation
        status := .ready
        terminalReason := some .completed }
    | _ =>
      match applyToLast e st.conversation with
      | .ok conv =>
        { conversation := conv, status := .streaming, terminalReason := st.terminalReason }
      | .error _ =>
        { conversation := closeLastMessage st.conversation
          status := .error
          terminalReason := some .errored }
  else st

/-- Deliver a whole sequence of events, in order. -/
def deliverAll (st : SessionState) : List ProtocolEvent → SessionState
  | [] => st
  | e :: rest => deliverAll (deliver st e) rest

/-- A message as held by the `useChat` client: role, parts, and the metadata
attached at submission time (`sendMessage({ text, metadata: { model } })` in
`src/components/chat.tsx`). -/
structure ClientMessage where
  role : Role
  parts : List Part
  metadataModel : Option String
deriving DecidableEq, Repr

/-- The client-side state of the `Chat` component in `src/components/chat.tsx`:
`selectedModel`, `input` and `chatError` are `useState` cells, `messages` and
`status` come from `useChat`. -/
structure ChatState where
  selectedModel : String
  input : String
  chatError : Option String
  messages : List ClientMessage
  status : Status
deriving DecidableEq, Repr

/-- Whether the awaited `sendMessage` call resolves or rejects (with the
rejection's error message). -/
inductive SendOutcome
  | success
  | failure (message : String)
deriving DecidableEq, Repr

/-- The effect of `sendMessage({ text, metadata: { model: selectedModel } })`
on resolution, modelled from the spec (section 4.4, `submit`): the user message
is appended and the status becomes `submitted`.  (`sendMessage` itself is
`@ai-sdk/react` code, not under `src/`.) -/
def sendMessage (st : ChatState) (text : String) : ChatState :=
  { st with
    messages := st.messages ++ [{ role := .user, parts := [.text text], metadataModel := some st.selectedModel }]
    status := .submitted }

/-- From `src/components/chat.tsx` lines 50-71 (`handleSubmit`): return at once
when the trimmed input is empty, otherwise clear `chatError`, await
`sendMessage` and clear the input on success, or record the failure in
`chatError` on rejection (the input is left as it was).  The `outcome`
parameter stands for how the awaited `sendMessage` promise settles; on
rejection only the observable `input`/`chatError` effects of `handleSubmit`
itself are modelled. -/
def handleSubmit (st : ChatState) (outcome : SendOutcome) : ChatState :=
  if jsTrim st.input = "" then st
  else
    let st1 := { st with chatError := none }
    match outcome with
    | .success => { sendMessage st1 st1.input with input := "" }
    | .failure msg => { st1 with chatError := some msg }

/-- From `src/components/chat.tsx` lines 82-91 (`handleRetry`): clear
`chatError`; when the current input (not the last user message) is nonempty
after trimming, request a form submission, which runs `handleSubmit` again on
that current input. -/
def handleRetry (st : ChatState) (outcome : SendOutcome) : ChatState :=
  let st1 := { st with chatError := none }
  if jsTrim st1.input = "" then st1
  else handleSubmit st1 outcome

/-- The error taxonomy of `getErrorType` in the error-message module bundled
with `src/components/chat.tsx` (lines 380 and 515-531). -/
inductive ErrorType
  | network
  | api
  | model
  | unknown
deriving DecidableEq, Repr

/-- From `getErrorType` (bundled with `src/components/chat.tsx`, lines
515-531): lower-case the error's message and classify by the first matching
keyword group — network/fetch/connection, then api/http/status, then
model/ollama, else unknown.  It receives only the `Error` value and inspects
nothing but its `message` string. -/
def getErrorType (message : String) : ErrorType :=
  let m := toLowerStr message
  if includes m "network" || includes m "fetch" || includes m "connection" then .network
  else if includes m "api" || includes m "http" || includes m "status" then .api
  else if includes m "model" || includes m "ollama" then .model
  else .unknown

/-- The `OllamaModel` interface of `src/lib/ollama/provider.ts`. -/
structure OllamaModel where
  id : String
  name : String
  description : String
  contextLength : Nat
  capabilities : List String
  supportsImages : Bool := false
deriving DecidableEq, Repr

/-- The `modelConfig` record of `src/lib/ollama/provider.ts` (the
`ollama-ai-provider-v2` version, lines 128-193), as a key lookup. -/
def modelConfig : String → Option OllamaModel
  | "llama3.2" => some { id := "llama3.2", name := "Llama 3.2", description := "Efficient Llama model", contextLength := 128000, capabilities := ["chat", "code"] }
  | "llama3.3" => some { id := "llama3.3", name := "Llama 3.3", description := "Latest Llama model with 128K context", contextLength := 128000, capabilities := ["chat", "code", "reasoning"] }
  | "mistral" => some { id := "mistral", name := "Mistral", description := "Efficient 7B model", contextLength := 32000, capabilities := ["chat", "code"] }
  | "gemma2" => some { id := "gemma2", name := "Gemma 2", description := "Google's efficient model", contextLength := 8192, capabilities := ["chat", "creative"] }
  | "qwen2.5" => some { id := "qwen2.5", name := "Qwen 2.5", description := "Alibaba's versatile model", contextLength := 32000, capabilities := ["chat", "code", "math"] }
  | "deepseek-r1" => some { id := "deepseek-r1", name := "DeepSeek R1", description := "Reasoning-focused model", contextLength := 64000, capabilities := ["reasoning", "code", "analysis"] }
  | "phi3" => some { id := "phi3", name := "Phi 3", description := "Microsoft's lightweight model", contextLength := 128000, capabilities := ["chat", "code", "lightweight"] }
  | "llava" => some { id := "llava", name := "LLaVA", description := "Vision-language model", contextLength := 4096, capabilities := ["vision", "chat", "image-analysis"], supportsImages := true }
  | "gpt-oss" => some { id := "gpt-oss", name := "GPT-OSS", description := "OpenAI's open-weight language model", contextLength := 8192, capabilities := ["chat", "code", "reasoning", "analysis"] }
  | _ => none

/-- From `getOllamaModel` in `src/lib/ollama/provider.ts` (lines 201-214):
throw when the id is not in `modelConfig`, use the `gpt-oss:20b` tag for
`gpt-oss`, and `<id>:latest` otherwise.  The thrown `Error`'s message is the
`error` payload. -/
def getOllamaModel (modelId : String) : Except String String :=
  match modelConfig modelId with
  | none => .error ("Model " ++ modelId ++ " not found")
  | some _ =>
    if modelId = "gpt-oss" then .ok "gpt-oss:20b"
    else .ok (modelId ++ ":latest")

/-- One entry of the Ollama `/api/tags` payload (`OllamaApiModel` in
`src/lib/ollama/provider.ts`). -/
structure OllamaApiModel where
  name : String
  modifiedAt : String
  size : Nat
deriving DecidableEq, Repr

/-- The observable outcome of `fetch(baseUrl + '/tags')` followed by
`response.json()` in `getAvailableModels`: the fetch or the JSON decoding threw
(`fetchFailure`), the decoded payload has no iterable `models` array so the
`for`-`of` throws inside the same `try` (`malformed`), or a models array was
decoded (`ok`). -/
inductive TagsResponse
  | fetchFailure
  | malformed
  | ok (models : List OllamaApiModel)
deriving DecidableEq, Repr

/-- The `for`-`of` loop of `getAvailableModels` (lines 230-241): walk the
server's models, keep the first occurrence of each base name that appears in
`modelConfig`, tracking seen names in a set. -/
def collectAvailable : List OllamaApiModel → List String → List OllamaModel
  | [], _ => []
  | m :: rest, seen =>
    let base := baseModelName m.name
    if seen.contains base then collectAvailable rest seen
    else
      match modelConfig base with
      | some cfg => cfg :: collectAvailable rest (base :: seen)
      | none => collectAvailable rest seen

/-- The expression `[modelConfig['llama3.2'] || modelConfig['llama3.3']].filter(Boolean)`
(line 245): the fallback when no server model matches the config. -/
def fallbackDefault : List OllamaModel :=
  match modelConfig "llama3.2" with
  | some m => [m]
  | none =>
    match modelConfig "llama3.3" with
    | some m => [m]
    | none => []

/-- The expression `[modelConfig['llama3.3']].filter(Boolean)` (line 252): the
fallback when the fetch/decode threw. -/
def fallbackError : List OllamaModel :=
  match modelConfig "llama3.3" with
  | some m => [m]
  | none => []

/-- From `getAvailableModels` in `src/lib/ollama/provider.ts` (lines 217-254,
the `ollama-ai-provider-v2` version), as a function of the observable server
response: any throw inside the `try` is caught and yields the llama3.3
fallback; a decoded list is filtered/deduplicated against `modelConfig`, with
the llama3.2 fallback when nothing matches. -/
def getAvailableModels : TagsResponse → List OllamaModel
  | .fetchFailure => fallbackError
  | .malformed => fallbackError
  | .ok models =>
    let availableModels := collectAvailable models []
    if availableModels.isEmpty then fallbackDefault else availableModels

/-- The decoded JSON body of a chat request as the route handler could see it:
the `messages` array it destructures, plus top-level `model` and `temperature`
fields a client might include (`temperature` scaled by ten to stay integral;
its numeric value is never read). -/
structure ChatRequestBody where
  messages : List ClientMessage
  model : Option String
  temperature : Option Int
deriving DecidableEq, Repr

/-- The result of the chat route handler: a streaming response produced by
`streamText` (recording the resolved model tag, the forwarded messages and the
hard-coded temperature, scaled by ten), or the 500 response of the `catch`
branch. -/
inductive PostResult
  | streamResponse (modelTag : String) (messages : List ClientMessage) (temperatureTimesTen : Nat)
  | serverError (stat : Nat)
deriving DecidableEq, Repr

/-- From the chat route handler bundled with `src/app/layout.tsx` (lines
49-51): `messages[messages.length - 1]?.metadata?.model || 'llama3.2'`. -/
def selectModelId (messages : List ClientMessage) : String :=
  match messages.getLast? with
  | some m => m.metadataModel.getD "llama3.2"
  | none => "llama3.2"

/-- From the chat route handler (`POST`) bundled with `src/app/layout.tsx`
(lines 44-67): destructure only `messages` from the body, pick the model from
the last message's metadata, resolve it through `getOllamaModel` (whose throw
is caught as a 500), and stream with the hard-coded `temperature: 0.7`. -/
def POST (body : ChatRequestBody) : PostResult :=
  let modelId := selectModelId body.messages
  match getOllamaModel modelId with
  | .ok tag => .streamResponse tag body.messages 7
  | .error _ => .serverError 500

theorem join_cons (a : String) (l : List String) :
    String.join (a :: l) = a ++ String.join l := by
  cases a with
  | mk d =>
    simp [String.join_eq]
    rfl

theorem renderText_eq_textConcat (ps : List Part) : renderText ps = textConcat ps := by
  induction ps with
  | nil => rfl
  | cons p ps ih =>
    cases p with
    | text s =>
      simp only [renderText, List.filter, isTextPart, List.map] at *
      rw [join_cons, ih]
      rfl
    | toolInvocation id name args result =>
      simp only [renderText, List.filter, isTextPart, List.map] at *
      rw [ih]
      simp [textConcat, partText, String.empty_append]
    | file mime data =>
      simp only [renderText, List.filter, isTextPart, List.map] at *
      rw [ih]
      simp [textConcat, partText, String.empty_append]

theorem appendDelta_cons2 (p q : Part) (qs : List Part) (t : String) :
    appendDelta (p :: q :: qs) t = p :: appendDelta (q :: qs) t := by
  simp [appendDelta]

theorem textConcat_appendDelta (ps : List Part) (t : String) :
    textConcat (appendDelta ps t) = textConcat ps ++ t := by
  induction ps with
  | nil =>
    simp [appendDelta, textConcat, partText, String.empty_append, String.append_empty]
  | cons p ps ih =>
    cases ps with
    | nil =>
      cases p <;>
        simp [appendDelta, textConcat, partText, String.empty_append, String.append_empty,
          String.append_assoc]
    | cons q qs =>
      rw [appendDelta_cons2]
      show partText p ++ textConcat (appendDelta (q :: qs) t) = textConcat (p :: q :: qs) ++ t
      rw [ih]
      simp [textConcat, String.append_assoc]

theorem textConcat_append (a b : List Part) :
    textConcat (a ++ b) = textConcat a ++ textConcat b := by
  induction a with
  | nil => simp [textConcat, String.empty_append]
  | cons p ps ih =>
    show partText p ++ textConcat (ps ++ b) = (partText p ++ textConcat ps) ++ textConcat b
    rw [ih, String.append_assoc]

theorem fillResult_step (p : Part) (rest : List Part) (id r : String) :
    fillResult (p :: rest) id r =
      match fillResult rest id r with
      | some rest2 => some (p :: rest2)
      | none => fillHead p rest id r := rfl

theorem fillResult_textConcat :
    ∀ (ps : List Part) (id r : String) (ps2 : List Part),
      fillResult ps id r = some ps2 → textConcat ps2 = textConcat ps := by
  intro ps
  induction ps with
  | nil =>
    intro id r ps2 h
    exact Option.noConfusion h
  | cons p rest ih =>
    intro id r ps2 h
    rw [fillResult_step] at h
    cases hrec : fillResult rest id r with
    | some rest2 =>
      rw [hrec] at h
      injection h with h
      subst h
      simp only [textConcat]
      rw [ih id r rest2 hrec]
    | none =>
      rw [hrec] at h
      cases p with
      | text s => exact Option.noConfusion h
      | file mime data => exact Option.noConfusion h
      | toolInvocation pid name args result =>
        cases result with
        | some r0 => exact Option.noConfusion h
        | none =>
          by_cases hp : pid = id
          · simp only [fillHead, if_pos hp] at h
            injection h with h
            subst h
            simp [textConcat, partText]
          · simp only [fillHead, if_neg hp] at h
            exact Option.noConfusion h

theorem deltaConcat_append (a b : List ProtocolEvent) :
    deltaConcat (a ++ b) = deltaConcat a ++ deltaConcat b := by
  induction a with
  | nil => simp [deltaConcat, String.empty_append]
  | cons e es ih =>
    cases e <;> simp [deltaConcat, ih, String.append_assoc]

theorem applyAll_append (a b : List ProtocolEvent) :
    ∀ m, applyAll (a ++ b) m =
      match applyAll a m with
      | .ok m2 => applyAll b m2
      | .error err => .error err := by
  induction a with
  | nil => intro m; rfl
  | cons e es ih =>
    intro m
    simp only [List.cons_append, applyAll]
    cases applyEvent e m with
    | ok m2 => exact ih m2
    | error err => rfl

theorem applyAll_text :
    ∀ (evts : List ProtocolEvent) (m m2 : Message),
      noFinish evts = true → m.closed = false → applyAll evts m = .ok m2 →
      m2.closed = false ∧ textConcat m2.parts = textConcat m.parts ++ deltaConcat evts := by
  intro evts
  induction evts with
  | nil =>
    intro m m2 _ hc h
    injection h with h
    subst h
    exact ⟨hc, by simp [deltaConcat, String.append_empty]⟩
  | cons e rest ih =>
    intro m m2 hnf hc h
    have hnfe : isFinish e = false ∧ noFinish rest = true := by
      simp only [noFinish, List.all_cons, Bool.and_eq_true, Bool.not_eq_true'] at hnf
      exact ⟨hnf.1, hnf.2⟩
    cases e with
    | textDelta t =>
      simp only [applyAll, applyEvent, hc, Bool.false_eq_true, if_false] at h
      have hstep := ih { role := m.role, parts := appendDelta m.parts t, closed := false } m2
        hnfe.2 rfl h
      refine ⟨hstep.1, ?_⟩
      rw [hstep.2]
      simp only [textConcat_appendDelta, deltaConcat]
      rw [String.append_assoc]
    | toolCall id name args =>
      simp only [applyAll, applyEvent, hc, Bool.false_eq_true, if_false] at h
      have hstep := ih
        { role := m.role, parts := m.parts ++ [.toolInvocation id name args none], closed := false }
        m2 hnfe.2 rfl h
      refine ⟨hstep.1, ?_⟩
      rw [hstep.2]
      simp [textConcat_append, textConcat, partText, deltaConcat, String.append_empty]
    | toolResult id r =>
      simp only [applyAll, applyEvent, hc, Bool.false_eq_true, if_false] at h
      cases hfill : fillResult m.parts id r with
      | none =>
        rw [hfill] at h
        simp at h
      | some ps =>
        rw [hfill] at h
        simp only [] at h
        have hstep := ih { role := m.role, parts := ps, closed := false } m2 hnfe.2 rfl h
        refine ⟨hstep.1, ?_⟩
        rw [hstep.2]
        simp only [deltaConcat]
        rw [fillResult_textConcat m.parts id r ps hfill]
    | errorEvent msg =>
      simp only [applyAll, applyEvent, hc, Bool.false_eq_true, if_false] at h
      have hstep := ih m m2 hnfe.2 hc h
      exact ⟨hstep.1, by rw [hstep.2]; simp [deltaConcat]⟩
    | finish reason =>
      simp [isFinish] at hnfe

/-- Claim C1: for every event sequence ending in a `finish` event (the
terminating event, so `finish` occurs only as the last element) on which
assembly succeeds, the assembled assistant message's concatenated text equals
the concatenation of all `text-delta.text` payloads in arrival order, and the
rendered message text (the `filter`/`map`/`join` of
`src/components/message-list.tsx`) is exactly the in-order join of the text
parts. -/
theorem c1_assembled_text_eq_deltas
    (body : List ProtocolEvent) (r : FinishReason) (m : Message)
    (hnf : noFinish body = true)
    (h : applyAll (body ++ [ProtocolEvent.finish r]) emptyAssistantMessage = .ok m) :
    renderText m.parts = deltaConcat (body ++ [ProtocolEvent.finish r]) ∧
    renderText m.parts = textConcat m.parts := by
  rw [applyAll_append] at h
  cases hbody : applyAll body emptyAssistantMessage with
  | error err =>
    rw [hbody] at h
    exact Except.noConfusion h
  | ok m1 =>
    rw [hbody] at h
    have hinv := applyAll_text body emptyAssistantMessage m1 hnf rfl hbody
    simp only [applyAll, applyEvent, hinv.1, Bool.false_eq_true, if_false] at h
    injection h with h
    subst h
    refine ⟨?_, renderText_eq_textConcat _⟩
    rw [renderText_eq_textConcat]
    show textConcat m1.parts = _
    rw [hinv.2, deltaConcat_append]
    simp [textConcat, deltaConcat, emptyAssistantMessage, String.empty_append,
      String.append_empty]

/-- A concrete streamed exchange used by the claim witnesses. -/
def demoBody : List ProtocolEvent :=
  [.textDelta "Hi", .toolCall "call1" "search" "q", .toolResult "call1" "found",
   .textDelta " there"]

/-- The message the assembler produces from `demoBody` followed by `finish`. -/
def demoAssembled : Message :=
  { role := .assistant
    parts := [.text "Hi", .toolInvocation "call1" "search" "q" (some "found"), .text " there"]
    closed := true }

/-- Witness for claim C1 at a concrete event sequence. -/
theorem c1_witness :
    renderText demoAssembled.parts = deltaConcat (demoBody ++ [ProtocolEvent.finish .stop]) ∧
    renderText demoAssembled.parts = textConcat demoAssembled.parts :=
  c1_assembled_text_eq_deltas demoBody .stop demoAssembled (by decide) (by rfl)

/-- Claim C8: the Message Assembler is deterministic — replaying one ordered
event sequence against a fresh empty message any number of times yields an
identical Message structure; the assembler is a pure function of the event
list and the start message, so two runs from equal fresh messages agree. -/
theorem c8_assembler_deterministic
    (evts : List ProtocolEvent) (m1 m2 : Message)
    (h1 : m1 = emptyAssistantMessage) (h2 : m2 = emptyAssistantMessage) :
    applyAll evts m1 = applyAll evts m2 := by
  subst h1
  subst h2
  rfl

/-- Witness for claim C8 at a concrete event sequence. -/
theorem c8_witness :
    applyAll (demoBody ++ [ProtocolEvent.finish .stop]) emptyAssistantMessage =
      applyAll (demoBody ++ [ProtocolEvent.finish .stop]) emptyAssistantMessage :=
  c8_assembler_deterministic (demoBody ++ [ProtocolEvent.finish .stop]) _ _ rfl rfl

theorem cancel_inactive (st : SessionState) (h : isActiveStatus st.status = false) :
    cancel st = st := by
  simp [cancel, h]

theorem cancel_status_inactive (st : SessionState) :
    isActiveStatus (cancel st).status = false := by
  by_cases h : isActiveStatus st.status
  · have hc : cancel st =
        { conversation := closeLastMessage st.conversation
          status := .ready
          terminalReason := some .cancelled } := by
      simp [cancel, h]
    rw [hc]
    rfl
  · rw [cancel_inactive st (by simpa using h)]
    simpa using h

theorem deliver_inactive (st : SessionState) (e : ProtocolEvent)
    (h : isActiveStatus st.status = false) : deliver st e = st := by
  simp [deliver, h]

theorem deliverAll_inactive :
    ∀ (evts : List ProtocolEvent) (st : SessionState),
      isActiveStatus st.status = false → deliverAll st evts = st := by
  intro evts
  induction evts with
  | nil => intro st _; rfl
  | cons e rest ih =>
    intro st h
    simp only [deliverAll, deliver_inactive st e h]
    exact ih st h

/-- Claim C3: when `cancel()` is invoked while the session is `streaming`, the
exchange's terminal reason is `cancelled` and never `completed`, even when a
`finish` event (or any other events) had already been delivered but not yet
processed at the moment of cancellation: every event processed after the
cancellation is observed in a non-active status and ignored. -/
theorem c3_cancel_beats_inflight_finish
    (st : SessionState) (inflight : List ProtocolEvent)
    (h : st.status = Status.streaming) :
    (deliverAll (cancel st) inflight).terminalReason = some TerminalReason.cancelled ∧
    (deliverAll (cancel st) inflight).terminalReason ≠ some TerminalReason.completed := by
  have hact : isActiveStatus st.status = true := by rw [h]; rfl
  rw [deliverAll_inactive inflight (cancel st) (cancel_status_inactive st)]
  simp [cancel, hact]

/-- A concrete mid-stream session used by the claim witnesses. -/
def demoStreaming : SessionState :=
  { conversation :=
      [{ role := .user, parts := [.text "hello"], closed := true },
       { role := .assistant, parts := [.text "Hi"], closed := false }]
    status := .streaming
    terminalReason := none }

/-- Witness for claim C3: cancellation with a `finish` event already in
flight. -/
theorem c3_witness :
    (deliverAll (cancel demoStreaming) [ProtocolEvent.finish .stop]).terminalReason =
      some TerminalReason.cancelled ∧
    (deliverAll (cancel demoStreaming) [ProtocolEvent.finish .stop]).terminalReason ≠
      some TerminalReason.completed :=
  c3_cancel_beats_inflight_finish demoStreaming [ProtocolEvent.finish .stop] (by rfl)

/-- Claim C7: `cancel()` is idempotent — a second invocation changes nothing;
after a `cancel()` no further event mutates the session (every delivered
event is a no-op); and invoking it when the status is not
`submitted`/`streaming` (in particular after natural completion, status
`ready`) is a no-op that leaves the session unchanged. -/
theorem c7_cancel_idempotent (st : SessionState) :
    cancel (cancel st) = cancel st ∧
    (isActiveStatus st.status = false → cancel st = st) ∧
    ∀ e : ProtocolEvent, deliver (cancel st) e = cancel st := by
  refine ⟨cancel_inactive (cancel st) (cancel_status_inactive st), cancel_inactive st, ?_⟩
  intro e
  exact deliver_inactive (cancel st) e (cancel_status_inactive st)

/-- A concrete naturally-completed session used by the claim witnesses. -/
def demoCompleted : SessionState :=
  { conversation :=
      [{ role := .user, parts := [.text "hello"], closed := true },
       { role := .assistant, parts := [.text "Hi there"], closed := true }]
    status := .ready
    terminalReason := some .completed }

/-- Witness for claim C7 at a concrete completed session. -/
theorem c7_witness :
    cancel (cancel demoCompleted) = cancel demoCompleted ∧
    cancel demoCompleted = demoCompleted :=
  ⟨(c7_cancel_idempotent demoCompleted).1,
   (c7_cancel_idempotent demoCompleted).2.1 (by rfl)⟩

/-- A chat component state with a request still streaming and fresh text in
the input box. -/
def busyChat : ChatState :=
  { selectedModel := "llama3.2"
    input := "hello again"
    chatError := none
    messages :=
      [{ role := .user, parts := [.text "hi"], metadataModel := some "llama3.2" },
       { role := .assistant, parts := [.text "partial reply"], metadataModel := none }]
    status := .streaming }

/-- Counterexample to claim C2 as stated.  The claim requires a submission
while the status is `submitted`/`streaming` to fail with `InvalidInputError`
and to leave the conversation unchanged.  `handleSubmit` in
`src/components/chat.tsx` performs no such check (only the send button in
`chat-input.tsx` is disabled while loading): at the concrete streaming state
`busyChat` with nonempty input, `handleSubmit` calls `sendMessage` anyway —
the conversation gains the user message and no error of any kind is raised.
(The empty-input guard also raises nothing: it silently returns.) -/
theorem c2_counterexample :
    busyChat.status = Status.streaming ∧
    (handleSubmit busyChat .success).messages ≠ busyChat.messages ∧
    (handleSubmit busyChat .success).messages =
      busyChat.messages ++
        [{ role := .user, parts := [.text "hello again"], metadataModel := some "llama3.2" }] ∧
    (handleSubmit busyChat .success).chatError = none := by
  refine ⟨rfl, ?_, by rfl, by rfl⟩
  decide

/-- Claim C2 as amended: `handleSubmit` returns without doing anything when
the trimmed input is empty (no `InvalidInputError` exists anywhere in the
code); otherwise — regardless of the current status, active or not — it
clears the error, appends the user message with the selected model as
metadata, transitions to `submitted` and clears the input on success. -/
theorem c2_amended (st : ChatState) (outcome : SendOutcome) :
    (jsTrim st.input = "" → handleSubmit st outcome = st) ∧
    (jsTrim st.input ≠ "" →
      (handleSubmit st .success).messages =
        st.messages ++
          [{ role := .user, parts := [.text st.input], metadataModel := some st.selectedModel }] ∧
      (handleSubmit st .success).status = Status.submitted ∧
      (handleSubmit st .success).input = "" ∧
      (handleSubmit st .success).chatError = none) := by
  constructor
  · intro h
    simp [handleSubmit, h]
  · intro h
    simp [handleSubmit, h, sendMessage]

/-- A chat component state with nothing typed into the input box. -/
def idleChat : ChatState :=
  { selectedModel := "llama3.2"
    input := "   "
    chatError := none
    messages := []
    status := .ready }

/-- Witness for claim C2 (amended) at concrete states: whitespace-only input
is a no-op, and a nonempty submission appends the user message. -/
theorem c2_witness :
    handleSubmit idleChat .success = idleChat ∧
    (handleSubmit busyChat .success).status = Status.submitted :=
  ⟨(c2_amended idleChat .success).1 (by decide),
   ((c2_amended busyChat .success).2 (by decide)).2.1⟩

/-- Claim C10: when the awaited `sendMessage` rejects, `handleSubmit` leaves
the input text untouched (it is cleared only after a successful send, so the
pending input is never lost) and records the failure in `chatError`. -/
theorem c10_failed_send_preserves_input (st : ChatState) (msg : String)
    (h : jsTrim st.input ≠ "") :
    (handleSubmit st (.failure msg)).input = st.input ∧
    (handleSubmit st (.failure msg)).chatError = some msg ∧
    (handleSubmit st (.failure msg)).messages = st.messages ∧
    (handleSubmit st .success).input = "" := by
  simp [handleSubmit, h]

/-- Witness for claim C10 at a concrete failing submission. -/
theorem c10_witness :
    (handleSubmit busyChat (.failure "fetch failed")).input = busyChat.input ∧
    (handleSubmit busyChat (.failure "fetch failed")).chatError = some "fetch failed" ∧
    (handleSubmit busyChat (.failure "fetch failed")).messages = busyChat.messages ∧
    (handleSubmit busyChat .success).input = "" :=
  c10_failed_send_preserves_input busyChat "fetch failed" (by decide)

/-- A chat state right after a failed exchange: a prior user message
`"hello"`, a (partial) assistant message, an error banner showing, and an
input box already cleared by the earlier successful send. -/
def retryChat : ChatState :=
  { selectedModel := "llama3.2"
    input := ""
    chatError := some "stream aborted"
    messages :=
      [{ role := .user, parts := [.text "hello"], metadataModel := some "llama3.2" },
       { role := .assistant, parts := [.text "Hi"], metadataModel := none }]
    status := .ready }

/-- Counterexample to claim C4 as stated.  The claim requires `retry()` to
remove the last assistant message and re-submit the last user message's text
(`"hello"`).  `handleRetry` in `src/components/chat.tsx` instead resubmits
the current input box text when nonempty: at `retryChat` (status `ready`,
prior user message `"hello"`, assistant reply present, input box empty) it
only clears the error — the assistant message is not removed and nothing is
re-submitted. -/
theorem c4_counterexample :
    retryChat.status = Status.ready ∧
    retryChat.messages.getLast? =
      some { role := .assistant, parts := [.text "Hi"], metadataModel := none } ∧
    (handleRetry retryChat .success).messages = retryChat.messages ∧
    handleRetry retryChat .success = { retryChat with chatError := none } := by
  exact ⟨rfl, rfl, by rfl, by rfl⟩

/-- Claim C4 as amended: `handleRetry` clears `chatError`, performs no status
check, never removes a message (the message list only ever grows), and when
the current input text is nonempty after trimming it re-runs `handleSubmit`
on that current input (which after a failed send still equals the last
attempted text); when the input is empty it resubmits nothing. -/
theorem c4_amended (st : ChatState) (outcome : SendOutcome) :
    (jsTrim st.input = "" → handleRetry st outcome = { st with chatError := none }) ∧
    (jsTrim st.input ≠ "" →
      handleRetry st outcome = handleSubmit { st with chatError := none } outcome) ∧
    (∃ suffix : List ClientMessage,
      (handleRetry st outcome).messages = st.messages ++ suffix) := by
  refine ⟨?_, ?_, ?_⟩
  · intro h
    simp [handleRetry, h]
  · intro h
    simp [handleRetry, h]
  · by_cases h : jsTrim st.input = ""
    · exact ⟨[], by simp [handleRetry, h]⟩
    · cases outcome with
      | success =>
        refine ⟨[{ role := .user, parts := [.text st.input], metadataModel := some st.selectedModel }], ?_⟩
        simp [handleRetry, handleSubmit, sendMessage, h]
      | failure msg =>
        exact ⟨[], by simp [handleRetry, handleSubmit, h]⟩

/-- Witness for claim C4 (amended) at concrete states. -/
theorem c4_witness :
    handleRetry retryChat .success = { retryChat with chatError := none } ∧
    handleRetry busyChat .success = handleSubmit { busyChat with chatError := none } .success :=
  ⟨(c4_amended retryChat .success).1 (by decide),
   (c4_amended busyChat .success).2.1 (by decide)⟩

/-- Counterexample to claim C5 as stated.  The claim requires classification
to be a pure function of structured signals (connection state, HTTP status,
decoded payload) into the kinds network/protocol/upstream/cancelled, with
prose matching only as a fallback when no structured signal exists.
`getErrorType` does the opposite: it consults nothing but the human-readable
message.  Two errors describing the same structured failure — an HTTP 500
response — classify differently depending on their wording, and the resulting
kind `api` is not even one of the claim's four kinds (the code's taxonomy is
network/api/model/unknown, with no `protocol`, `upstream` or `cancelled`). -/
theorem c5_counterexample :
    getErrorType "HTTP 500" = ErrorType.api ∧
    getErrorType "request failed with code 500" = ErrorType.unknown ∧
    getErrorType "HTTP 500" ≠ getErrorType "request failed with code 500" := by
  decide

/-- Claim C5 as amended: error classification is a pure function of the
error's human-readable message alone — it lower-cases the message and
keyword-matches it, mapping into the kinds network/api/model/unknown, with
the network keywords taking precedence; errors whose lowercased messages
agree always classify identically, whatever their structured cause was. -/
theorem c5_amended (msg : String) :
    (includes (toLowerStr msg) "network" = true → getErrorType msg = ErrorType.network) ∧
    (getErrorType msg = ErrorType.network ∨ getErrorType msg = ErrorType.api ∨
      getErrorType msg = ErrorType.model ∨ getErrorType msg = ErrorType.unknown) ∧
    (∀ msg2, toLowerStr msg = toLowerStr msg2 → getErrorType msg = getErrorType msg2) := by
  refine ⟨?_, ?_, ?_⟩
  · intro h
    simp [getErrorType, h]
  · simp only [getErrorType]
    split_ifs <;> tauto
  · intro msg2 h
    simp only [getErrorType]
    rw [h]

/-- Witness for claim C5 (amended) at a concrete message. -/
theorem c5_witness :
    getErrorType "network timeout" = ErrorType.network :=
  (c5_amended "network timeout").1 (by decide)

/-- A request body whose top-level `model` field names one model while the
last message's metadata names another. -/
def crossBody : ChatRequestBody :=
  { messages := [{ role := .user, parts := [.text "hi"], metadataModel := some "mistral" }]
    model := some "gemma2"
    temperature := some 7 }

/-- Counterexample to claim C6 as stated.  The claim makes the body contract
`{ messages, model, temperature? }` with `model` the identifier used
for inference.  The route handler destructures only `messages` from the body:
at `crossBody`, whose top-level `model` field says `gemma2`, inference runs
with `mistral:latest` taken from the last message's `metadata.model`, and the
hard-coded temperature 0.7 is used — no request field carries it. -/
theorem c6_counterexample :
    crossBody.model = some "gemma2" ∧
    POST crossBody = PostResult.streamResponse "mistral:latest" crossBody.messages 7 ∧
    "mistral:latest" ≠ "gemma2:latest" := by
  refine ⟨rfl, by rfl, by decide⟩

/-- Claim C6 as amended: the chat `POST` handler reads only the `messages`
field of the body — the model identifier is derived from the last message's
`metadata.model` (default `llama3.2`) and the temperature is fixed
server-side at 0.7 — so the handler is stateless in `messages`: two bodies
with equal `messages` (whatever their top-level `model`/`temperature`
fields) produce identical results. -/
theorem c6_amended (b1 b2 : ChatRequestBody) (h : b1.messages = b2.messages) :
    POST b1 = POST b2 := by
  simp only [POST, selectModelId, h]

/-- Witness for claim C6 (amended): the same messages with and without
top-level `model`/`temperature` fields. -/
theorem c6_witness :
    POST crossBody =
      POST { messages := crossBody.messages, model := none, temperature := none } :=
  c6_amended crossBody { messages := crossBody.messages, model := none, temperature := none } rfl

theorem modelConfig_id (k : String) (m : OllamaModel) (h : modelConfig k = some m) :
    m.id = k := by
  unfold modelConfig at h
  split at h <;> first
    | exact Option.noConfusion h
    | (injection h with h; subst h; rfl)

theorem collectAvailable_cons (a : OllamaApiModel) (rest : List OllamaApiModel)
    (seen : List String) :
    collectAvailable (a :: rest) seen =
      if seen.contains (baseModelName a.name) then collectAvailable rest seen
      else
        match modelConfig (baseModelName a.name) with
        | some cfg => cfg :: collectAvailable rest (baseModelName a.name :: seen)
        | none => collectAvailable rest seen := rfl

theorem collect_mem :
    ∀ (ms : List OllamaApiModel) (seen : List String) (m : OllamaModel),
      m ∈ collectAvailable ms seen → ∃ k, modelConfig k = some m := by
  intro ms
  induction ms with
  | nil =>
    intro seen m h
    simp [collectAvailable] at h
  | cons a rest ih =>
    intro seen m h
    rw [collectAvailable_cons] at h
    by_cases hc : seen.contains (baseModelName a.name) = true
    · rw [if_pos hc] at h
      exact ih seen m h
    · rw [if_neg hc] at h
      cases hcfg : modelConfig (baseModelName a.name) with
      | none =>
        rw [hcfg] at h
        exact ih seen m h
      | some cfg =>
        rw [hcfg] at h
        rcases List.mem_cons.mp h with he | hmem
        · subst he
          exact ⟨baseModelName a.name, hcfg⟩
        · exact ih _ m hmem

theorem collect_nodup :
    ∀ (ms : List OllamaApiModel) (seen : List String),
      ((collectAvailable ms seen).map (fun m => m.id)).Nodup ∧
      ∀ i ∈ (collectAvailable ms seen).map (fun m => m.id), i ∉ seen := by
  intro ms
  induction ms with
  | nil =>
    intro seen
    refine ⟨by simp [collectAvailable], ?_⟩
    intro i hi
    simp [collectAvailable] at hi
  | cons a rest ih =>
    intro seen
    rw [collectAvailable_cons]
    by_cases hc : seen.contains (baseModelName a.name) = true
    · rw [if_pos hc]
      exact ih seen
    · rw [if_neg hc]
      have hcf : seen.contains (baseModelName a.name) = false := by
        simpa using hc
      have hnotin : baseModelName a.name ∉ seen := by
        simpa using hcf
      cases hcfg : modelConfig (baseModelName a.name) with
      | none =>
        exact ih seen
      | some cfg =>
        have hid := modelConfig_id _ _ hcfg
        have hih := ih (baseModelName a.name :: seen)
        refine ⟨?_, ?_⟩
        · simp only [List.map_cons, List.nodup_cons]
          refine ⟨?_, hih.1⟩
          intro hmem
          exact hih.2 cfg.id hmem (by rw [hid]; exact List.mem_cons_self _ _)
        · intro i hi
          rcases List.mem_cons.mp hi with he | hmem
          · subst he
            simpa [hid] using hnotin
          · intro hin
            exact hih.2 i hmem (List.mem_cons_of_mem _ hin)

theorem fallbackError_sub (m : OllamaModel) (hm : m ∈ fallbackError) :
    ∃ k, modelConfig k = some m := by
  refine ⟨"llama3.3", ?_⟩
  revert hm
  simp only [fallbackError]
  cases hcfg : modelConfig "llama3.3" with
  | none => intro hm; simp at hm
  | some cfg =>
    intro hm
    simp at hm
    rw [hm]

theorem fallbackDefault_sub (m : OllamaModel) (hm : m ∈ fallbackDefault) :
    ∃ k, modelConfig k = some m := by
  revert hm
  simp only [fallbackDefault]
  cases h2 : modelConfig "llama3.2" with
  | some cfg =>
    intro hm
    simp at hm
    exact ⟨"llama3.2", by rw [hm, h2]⟩
  | none =>
    cases h3 : modelConfig "llama3.3" with
    | some cfg =>
      intro hm
      simp at hm
      exact ⟨"llama3.3", by rw [hm, h3]⟩
    | none =>
      intro hm
      simp at hm

/-- Claim C9: `getAvailableModels` never throws — for every observable server
response, including fetch failures and unparsable payloads, it returns a
non-empty list whose members are all values of `modelConfig` and whose ids
are pairwise distinct (falling back to llama3.3 on a caught throw and to
llama3.2 when no server model matches the config). -/
theorem c9_getAvailableModels_safe (resp : TagsResponse) :
    getAvailableModels resp ≠ [] ∧
    (∀ m ∈ getAvailableModels resp, ∃ k, modelConfig k = some m) ∧
    ((getAvailableModels resp).map (fun m => m.id)).Nodup := by
  cases resp with
  | fetchFailure =>
    exact ⟨by decide, fun m hm => fallbackError_sub m hm, by decide⟩
  | malformed =>
    exact ⟨by decide, fun m hm => fallbackError_sub m hm, by decide⟩
  | ok models =>
    by_cases he : (collectAvailable models []).isEmpty = true
    · rw [show getAvailableModels (.ok models) = fallbackDefault from by
        simp [getAvailableModels, he]]
      exact ⟨by decide, fun m hm => fallbackDefault_sub m hm, by decide⟩
    · have hef : (collectAvailable models []).isEmpty = false := by simpa using he
      rw [show getAvailableModels (.ok models) = collectAvailable models [] from by
        simp [getAvailableModels, hef]]
      refine ⟨?_, fun m hm => collect_mem models [] m hm, (collect_nodup models []).1⟩
      intro hnil
      rw [hnil] at hef
      simp at hef

/-- Witness for claim C9 at concrete server responses: a failed fetch and a
payload listing `mistral` twice both yield non-empty duplicate-free results. -/
theorem c9_witness :
    getAvailableModels TagsResponse.fetchFailure ≠ [] ∧
    getAvailableModels
        (TagsResponse.ok
          [{ name := "mistral:latest", modifiedAt := "2024", size := 1 },
           { name := "mistral:7b", modifiedAt := "2024", size := 1 }]) ≠ [] :=
  ⟨(c9_getAvailableModels_safe TagsResponse.fetchFailure).1,
   (c9_getAvailableModels_safe
      (TagsResponse.ok
        [{ name := "mistral:latest", modifiedAt := "2024", size := 1 },
         { name := "mistral:7b", modifiedAt := "2024", size := 1 }])).1⟩

end OllamaChat
